import Mathlib

/-!
Shallow embedding of the diff-artifact path-parsing and comment-formatting
logic of `bitbucket_comments.py` and `parse-diff-files.py`.

Strings are modelled as `List Char`.  The filesystem is an oracle
`FS : List Char → FileState` passed explicitly to every function that performs
I/O in the Python source; `FileState` distinguishes the read outcomes the
Python code distinguishes (`os.path.exists` false / readable / PermissionError /
UnicodeDecodeError), each failure carrying the exception's message text.

Python semantics modelled here:
  * `str.replace(pat, '')` with a non-empty `pat`: leftmost, non-overlapping,
    single left-to-right pass (`removeAll`).
  * `str.split(sep)` with a one-character separator (`splitOnChar`); the empty
    string splits to `[""]`, as in Python.
  * `str.strip()` (`strip`), with `Char.isWhitespace` standing in for Python's
    whitespace class (the inputs of interest contain only ASCII whitespace).
  * `os.path.basename` on POSIX: the segment after the last `/`.
  * `re.search(r'\.(\d+-\d+)\.diff$', filename)` (`rangeMatch`): because the
    pattern is anchored at the end and digit groups cannot contain `.` or `-`,
    a successful search is exactly the unique decomposition
    `filename = pre ++ "." ++ d1 ++ "-" ++ d2 ++ ".diff"` with `d1`, `d2`
    non-empty digit runs (proved below as `rangeMatch_eq_some_iff`).  `\d` is
    modelled as an ASCII decimal digit.
-/

abbrev Str := List Char

def str (s : String) : Str := s.toList

/-- Outcome of the filesystem at one path, as the Python code can observe it:
`absent` makes `os.path.exists` false and `open` raise `FileNotFoundError`;
the other failure states exist and make `open`/`read` raise, carrying the
exception message `msg` that Python would interpolate into `f"{e}"`. -/
inductive FileState where
  | absent (msg : Str)
  | readable (content : Str)
  | permissionDenied (msg : Str)
  | decodeError (msg : Str)
deriving DecidableEq

abbrev FS := Str → FileState

/-- Model of `os.path.exists(p)`. -/
def os_path_exists (fs : FS) (p : Str) : Bool :=
  match fs p with
  | .absent _ => false
  | _ => true

/-- The `content` variable after the `try/except` read in both parsers:
the file text on success, `f"Error reading file: {e}"` on any caught failure. -/
def readFileSoft (fs : FS) (p : Str) : Str :=
  match fs p with
  | .readable c => c
  | .absent m => str "Error reading file: " ++ m
  | .permissionDenied m => str "Error reading file: " ++ m
  | .decodeError m => str "Error reading file: " ++ m

/-- Boolean prefix test on character lists (first argument is the pattern). -/
def startsWith : Str → Str → Bool
  | [], _ => true
  | _ :: _, [] => false
  | c :: cs, d :: ds => c == d && startsWith cs ds

/-- Python's `pat in s` substring test. -/
def hasSubstr (pat : Str) (s : Str) : Bool :=
  match s with
  | [] => startsWith pat []
  | _ :: rest => startsWith pat s || hasSubstr pat rest

/-- Worker for `removeAll`, structurally recursive on a fuel argument so the
kernel can evaluate it; at every call site `fuel ≥ s.length`, which makes the
`0, s => s` branch unreachable there (removing an occurrence consumes at least
one character when the pattern is non-empty). -/
def removeAllFuel (pat : Str) : Nat → Str → Str
  | _, [] => []
  | 0, s => s
  | fuel + 1, c :: rest =>
    if 0 < pat.length ∧ startsWith pat (c :: rest) = true then
      removeAllFuel pat fuel ((c :: rest).drop pat.length)
    else
      c :: removeAllFuel pat fuel rest

/-- Python's `s.replace(pat, '')` for non-empty `pat`: one left-to-right pass
removing leftmost non-overlapping occurrences (the scan resumes after the
removed occurrence, never inside it). -/
def removeAll (pat : Str) (s : Str) : Str :=
  removeAllFuel pat s.length s

/-- Python's `s.split(sep)` for a one-character separator. -/
def splitOnChar (sep : Char) : Str → List Str
  | [] => [[]]
  | c :: rest =>
    if c = sep then [] :: splitOnChar sep rest
    else
      match splitOnChar sep rest with
      | [] => [[c]]
      | t :: ts => (c :: t) :: ts

/-- Python's `s.strip()`. -/
def strip (s : Str) : Str :=
  ((s.dropWhile Char.isWhitespace).reverse.dropWhile Char.isWhitespace).reverse

/-- Model of `os.path.basename(p)` on POSIX: everything after the last `/`. -/
def basename (p : Str) : Str :=
  (p.reverse.takeWhile (fun c => c != '/')).reverse

/-- Model of `re.search(r'\.(\d+-\d+)\.diff$', filename)`, returning the two digit
groups `(d1, d2)` on success.  Implemented from the right end of the string,
which is where the anchored pattern constrains it. -/
def rangeMatch (filename : Str) : Option (Str × Str) :=
  let r := filename.reverse
  if startsWith (str "ffid.") r = true then
    let r1 := r.drop 5
    let d2r := r1.takeWhile Char.isDigit
    let r2 := r1.dropWhile Char.isDigit
    match r2 with
    | [] => none
    | c :: r3 =>
      if d2r ≠ [] ∧ c = '-' then
        let d1r := r3.takeWhile Char.isDigit
        let r4 := r3.dropWhile Char.isDigit
        match r4 with
        | [] => none
        | c2 :: _ =>
          if d1r ≠ [] ∧ c2 = '.' then some (d1r.reverse, d2r.reverse) else none
      else none
  else none

/-- Python `int()` on a string of decimal digits. -/
def digitsToNat (s : Str) : Nat :=
  s.foldl (fun n c => n * 10 + (c.toNat - '0'.toNat)) 0

/-- The dictionary both parsers return (`None` fields become `Option.none`). -/
structure ParsedDiff where
  filename : Str
  range : Option Str
  start_line : Option Nat
  end_line : Option Nat
  full_path : Str
  content : Str
deriving DecidableEq

/-- Embedding of `parse_diff_file_path` from `parse-diff-files.py` (lines 12-61): always
returns a record; a failed read only substitutes the diagnostic content. -/
def parse_diff_file_path (fs : FS) (file_path : Str) : ParsedDiff :=
  let filename := basename file_path
  let base_filename := removeAll (str ".diff") filename
  let content := readFileSoft fs file_path
  match rangeMatch filename with
  | some (d1, d2) =>
    let range_str := d1 ++ '-' :: d2
    { filename := removeAll ('.' :: range_str) base_filename
      range := some range_str
      start_line := some (digitsToNat d1)
      end_line := some (digitsToNat d2)
      full_path := file_path
      content := content }
  | none =>
    { filename := base_filename
      range := none
      start_line := none
      end_line := none
      full_path := file_path
      content := content }

/-- Embedding of `parse_diff_file` from `bitbucket_comments.py` (lines 104-156): returns
`None` when `os.path.exists` is false (line 114-116), otherwise the same
record as the standalone script computes. -/
def parse_diff_file (fs : FS) (file_path : Str) : Option ParsedDiff :=
  if os_path_exists fs file_path = true then
    let filename := basename file_path
    let base_filename := removeAll (str ".diff") filename
    let content := readFileSoft fs file_path
    match rangeMatch filename with
    | some (d1, d2) =>
      let range_str := d1 ++ '-' :: d2
      some { filename := removeAll ('.' :: range_str) base_filename
             range := some range_str
             start_line := some (digitsToNat d1)
             end_line := some (digitsToNat d2)
             full_path := file_path
             content := content }
    | none =>
      some { filename := base_filename
             range := none
             start_line := none
             end_line := none
             full_path := file_path
             content := content }
  else none

/-- Embedding of `parse_diff_files` from `bitbucket_comments.py` (lines 159-183): split on
commas, strip, skip empties, and keep only the paths for which
`parse_diff_file` returned a record. -/
def parse_diff_files (fs : FS) (comma_separated_paths : Str) : List ParsedDiff :=
  let file_paths := (splitOnChar ',' comma_separated_paths).map strip
  file_paths.filterMap (fun p => if p = [] then none else parse_diff_file fs p)

/-- The record sequence the `main` loop of `parse-diff-files.py` (lines 73-91)
processes: every non-empty stripped token yields a record. -/
def parse_diff_files_script (fs : FS) (comma_separated_paths : Str) : List ParsedDiff :=
  let file_paths := (splitOnChar ',' comma_separated_paths).map strip
  file_paths.filterMap (fun p => if p = [] then none else some (parse_diff_file_path fs p))

/-- Decimal rendering of a line number, as Python's f-string interpolation
prints a non-negative `int`. -/
def natToDigits (n : Nat) : Str := Nat.toDigits 10 n

/-- Python's `'\n'.join(parts)`. -/
def joinNl (parts : List Str) : Str := List.intercalate (str "\x0a") parts

/-- The `parts` list built by `format_comment` (`bitbucket_comments.py`
lines 186-206): base comment, then `File: ...` if the filename is non-empty
(truthy), then `Line: n` if the line is not `None`. -/
def formatParts (comment : Str) (filename : Str) (line : Option Nat) : List Str :=
  let parts := [comment]
  let parts := if filename ≠ [] then parts ++ [str "File: `" ++ filename ++ str "`"] else parts
  match line with
  | some n => parts ++ [str "Line: " ++ natToDigits n]
  | none => parts

/-- Embedding of `format_comment` from `bitbucket_comments.py`: newline-join of the parts. -/
def format_comment (comment : Str) (filename : Str) (line : Option Nat) : Str :=
  joinNl (formatParts comment filename line)

/-- Python truthiness of an `Optional[str]`: `None` and `""` are falsy. -/
def pyTruthyStr (o : Option Str) : Bool :=
  match o with
  | none => false
  | some s => !s.isEmpty

/-- The line `main` (line 262) passes to the formatter:
`diff['start_line'] if diff['range'] else None`. -/
def display_line (d : ParsedDiff) : Option Nat :=
  if pyTruthyStr d.range = true then d.start_line else none

/-- The line `main` (line 272) passes to submission:
`diff['start_line'] if diff['range'] else 1`.  For every record either parser
constructs, a truthy `range` comes with `start_line = some n` (proved below),
so the `getD` default is never consulted on parser output. -/
def submit_line (d : ParsedDiff) : Nat :=
  if pyTruthyStr d.range = true then d.start_line.getD 1 else 1

/-- The comment text `main` (lines 259-270) builds for one record: the
formatted comment, plus a fenced snippet of the first 8 content lines when the
content is truthy and contains the literal `+++` marker. -/
def build_comment_text (comment : Str) (d : ParsedDiff) : Str :=
  let base := format_comment comment d.filename (display_line d)
  if d.content ≠ [] ∧ hasSubstr (str "+++") d.content = true then
    base ++ str "\x0a\x0a```\x0a" ++ joinNl ((splitOnChar '\x0a' d.content).take 8)
      ++ str "\x0a```"
  else base

/-- The decomposition certified by a successful search of
`\.(\d+-\d+)\.diff$`: the filename ends with `.<d1>-<d2>.diff` where `d1` and
`d2` are non-empty runs of decimal digits.  Because the pattern is anchored at
the end and the digit groups cannot contain `.` or `-`, this decomposition is
unique when it exists (`rangeMatch_eq_some_iff` below). -/
abbrev RangeSuffixDecomp (s pre d1 d2 : Str) : Prop :=
  s = pre ++ '.' :: (d1 ++ '-' :: (d2 ++ str ".diff")) ∧ d1 ≠ [] ∧ d2 ≠ [] ∧
    (∀ c ∈ d1, c.isDigit = true) ∧ (∀ c ∈ d2, c.isDigit = true)

/-- Filesystem on which every path is missing. -/
def fsAllAbsent : FS := fun _ => FileState.absent (str "ENOENT")

/-- Filesystem on which every path exists and reads as the empty string. -/
def fsAllEmpty : FS := fun _ => FileState.readable []

/-- Filesystem on which every path reads as a small unified-diff body. -/
def fsPlus : FS := fun _ => FileState.readable (str "header\x0a+++ b/f\x0aL1")

/-- Filesystem on which every open raises `PermissionError`. -/
def fsPermDenied : FS := fun _ => FileState.permissionDenied (str "Permission denied")

theorem startsWith_iff (p : Str) : ∀ s : Str, startsWith p s = true ↔ ∃ t, s = p ++ t := by
  induction p with
  | nil => intro s; simp [startsWith]
  | cons c cs ih =>
    intro s
    cases s with
    | nil => simp [startsWith]
    | cons d ds =>
      simp only [startsWith, Bool.and_eq_true, beq_iff_eq, ih ds]
      constructor
      · rintro ⟨rfl, t, rfl⟩; exact ⟨t, rfl⟩
      · rintro ⟨t, h⟩
        rw [List.cons_append] at h
        cases h
        exact ⟨rfl, t, rfl⟩

theorem mem_takeWhile (p : Char → Bool) : ∀ (l : Str), ∀ c ∈ l.takeWhile p, p c = true := by
  intro l
  induction l with
  | nil => simp [List.takeWhile]
  | cons a t ih =>
    intro c hc
    by_cases ha : p a = true
    · rw [List.takeWhile_cons, if_pos ha] at hc
      rcases List.mem_cons.mp hc with rfl | hm
      · exact ha
      · exact ih c hm
    · rw [List.takeWhile_cons, if_neg ha] at hc
      simp at hc

theorem dropWhile_head_false (p : Char → Bool) :
    ∀ (l : Str) (c : Char) (t : Str), l.dropWhile p = c :: t → p c = false := by
  intro l
  induction l with
  | nil => intro c t h; simp [List.dropWhile] at h
  | cons a l2 ih =>
    intro c t h
    rw [List.dropWhile_cons] at h
    by_cases ha : p a = true
    · rw [if_pos ha] at h; exact ih c t h
    · rw [if_neg ha] at h
      cases h
      exact Bool.eq_false_iff.mpr ha

theorem takeWhile_middle (p : Char → Bool) (l1 : Str) (c : Char) (l2 : Str)
    (h1 : ∀ x ∈ l1, p x = true) (hc : p c = false) :
    (l1 ++ c :: l2).takeWhile p = l1 ∧ (l1 ++ c :: l2).dropWhile p = c :: l2 := by
  induction l1 with
  | nil => simp [List.takeWhile_cons, List.dropWhile_cons, hc]
  | cons a l ih =>
    have ha : p a = true := h1 a (List.mem_cons_self a l)
    have ih2 := ih (fun x hx => h1 x (List.mem_cons_of_mem a hx))
    simp [List.takeWhile_cons, List.dropWhile_cons, ha, ih2.1, ih2.2]

theorem hasSubstr_of_startsWith (pat s : Str) (h : startsWith pat s = true) :
    hasSubstr pat s = true := by
  cases s with
  | nil => exact h
  | cons c rest => simp [hasSubstr, h]

theorem decomp_reverse (s pre d1 d2 : Str) :
    s = pre ++ '.' :: (d1 ++ '-' :: (d2 ++ str ".diff")) ↔
      s.reverse = str "ffid." ++ (d2.reverse ++ '-' :: (d1.reverse ++ '.' :: pre.reverse)) := by
  constructor
  · rintro rfl
    simp [List.reverse_append, List.append_assoc]
    decide
  · intro h
    have := congrArg List.reverse h
    rw [List.reverse_reverse] at this
    rw [this]
    simp [List.reverse_append, List.append_assoc]
    decide

theorem rangeMatch_eq_some_iff (s d1 d2 : Str) :
    rangeMatch s = some (d1, d2) ↔ ∃ pre, RangeSuffixDecomp s pre d1 d2 := by
  constructor
  · intro h
    simp only [rangeMatch] at h
    by_cases hsw : startsWith (str "ffid.") s.reverse = true
    swap
    · rw [if_neg hsw] at h; exact absurd h (by simp)
    rw [if_pos hsw] at h
    obtain ⟨t, ht⟩ := (startsWith_iff (str "ffid.") s.reverse).mp hsw
    have hlen : (str "ffid.").length = 5 := rfl
    have hdrop : s.reverse.drop 5 = t := by
      rw [ht, ← hlen, List.drop_left]
    rw [hdrop] at h
    rcases heq2 : t.dropWhile Char.isDigit with _ | ⟨c, r3⟩ <;> rw [heq2] at h
    · exact absurd h (by simp)
    dsimp only at h
    by_cases hcond : t.takeWhile Char.isDigit ≠ [] ∧ c = '-'
    swap
    · rw [if_neg hcond] at h; exact absurd h (by simp)
    rw [if_pos hcond] at h
    rcases heq4 : r3.dropWhile Char.isDigit with _ | ⟨c2, r5⟩ <;> rw [heq4] at h
    · exact absurd h (by simp)
    dsimp only at h
    by_cases hcond2 : r3.takeWhile Char.isDigit ≠ [] ∧ c2 = '.'
    swap
    · rw [if_neg hcond2] at h; exact absurd h (by simp)
    rw [if_pos hcond2] at h
    have hd1 : d1 = (r3.takeWhile Char.isDigit).reverse := by
      have := Option.some.inj h
      exact (Prod.mk.injEq _ _ _ _ ▸ this).1.symm
    have hd2 : d2 = (t.takeWhile Char.isDigit).reverse := by
      have := Option.some.inj h
      exact (Prod.mk.injEq _ _ _ _ ▸ this).2.symm
    have hc : c = '-' := hcond.2
    have hc2 : c2 = '.' := hcond2.2
    refine ⟨r5.reverse, ?_, ?_, ?_, ?_, ?_⟩
    · -- s = r5.reverse ++ '.' :: (d1 ++ '-' :: (d2 ++ str ".diff"))
      rw [decomp_reverse]
      have ht2 : t = t.takeWhile Char.isDigit ++ ('-' :: r3) := by
        conv_lhs => rw [← List.takeWhile_append_dropWhile Char.isDigit t]
        rw [heq2, hc]
      have hr3 : r3 = r3.takeWhile Char.isDigit ++ ('.' :: r5) := by
        conv_lhs => rw [← List.takeWhile_append_dropWhile Char.isDigit r3]
        rw [heq4, hc2]
      rw [ht, ht2, hr3, hd1, hd2]
      simp [List.reverse_reverse]
    · rw [hd1]; simpa using hcond2.1
    · rw [hd2]; simpa using hcond.1
    · rw [hd1]
      intro x hx
      exact mem_takeWhile Char.isDigit r3 x (List.mem_reverse.mp hx)
    · rw [hd2]
      intro x hx
      exact mem_takeWhile Char.isDigit t x (List.mem_reverse.mp hx)
  · rintro ⟨pre, hdec, hd1ne, hd2ne, hdig1, hdig2⟩
    have hrev := (decomp_reverse s pre d1 d2).mp hdec
    have hsw : startsWith (str "ffid.") s.reverse = true := by
      rw [hrev]
      exact (startsWith_iff _ _).mpr ⟨_, rfl⟩
    have hlen : (str "ffid.").length = 5 := rfl
    have hdrop : s.reverse.drop 5 =
        d2.reverse ++ '-' :: (d1.reverse ++ '.' :: pre.reverse) := by
      rw [hrev, ← hlen, List.drop_left]
    have tw2 := takeWhile_middle Char.isDigit d2.reverse '-'
      (d1.reverse ++ '.' :: pre.reverse)
      (fun x hx => hdig2 x (List.mem_reverse.mp hx)) (by decide)
    have tw1 := takeWhile_middle Char.isDigit d1.reverse '.' pre.reverse
      (fun x hx => hdig1 x (List.mem_reverse.mp hx)) (by decide)
    simp only [rangeMatch]
    rw [if_pos hsw, hdrop, tw2.2]
    dsimp only
    rw [if_pos ⟨by simpa [tw2.1] using hd2ne, rfl⟩]
    rw [tw1.2]
    dsimp only
    rw [if_pos ⟨by simpa [tw1.1] using hd1ne, rfl⟩]
    rw [tw1.1, tw2.1]
    simp [List.reverse_reverse]

theorem startsWith_refl (p : Str) : startsWith p p = true :=
  (startsWith_iff p p).mpr ⟨[], (List.append_nil p).symm⟩

theorem hasSubstr_append_of_startsWith (pat t : Str) (h : startsWith pat t = true) :
    ∀ l : Str, hasSubstr pat (l ++ t) = true := by
  intro l
  induction l with
  | nil => simpa using hasSubstr_of_startsWith pat t h
  | cons c l2 ih => simp [hasSubstr, ih]

theorem removeAllFuel_id (pat : Str) :
    ∀ (fuel : Nat) (s : Str), hasSubstr pat s = false → removeAllFuel pat fuel s = s := by
  intro fuel
  induction fuel with
  | zero => intro s _; cases s <;> rfl
  | succ n ih =>
    intro s hs
    cases s with
    | nil => rfl
    | cons c rest =>
      have hsw : startsWith pat (c :: rest) = false := by
        by_contra hne
        have : startsWith pat (c :: rest) = true := by
          cases hv : startsWith pat (c :: rest)
          · exact absurd hv hne
          · rfl
        rw [hasSubstr, this] at hs
        simp at hs
      have hrest : hasSubstr pat rest = false := by
        rw [hasSubstr, hsw] at hs
        simpa using hs
      rw [removeAllFuel, if_neg (by simp [hsw]), ih rest hrest]

theorem removeAll_id (pat s : Str) (h : hasSubstr pat s = false) : removeAll pat s = s :=
  removeAllFuel_id pat s.length s h

theorem ppath_rangeMatch_none (fs : FS) (p : Str) (h : rangeMatch (basename p) = none) :
    parse_diff_file_path fs p =
      { filename := removeAll (str ".diff") (basename p), range := none,
        start_line := none, end_line := none, full_path := p,
        content := readFileSoft fs p } := by
  simp only [parse_diff_file_path, h]

theorem ppath_rangeMatch_some (fs : FS) (p d1 d2 : Str)
    (h : rangeMatch (basename p) = some (d1, d2)) :
    parse_diff_file_path fs p =
      { filename := removeAll ('.' :: (d1 ++ '-' :: d2)) (removeAll (str ".diff") (basename p)),
        range := some (d1 ++ '-' :: d2),
        start_line := some (digitsToNat d1), end_line := some (digitsToNat d2),
        full_path := p, content := readFileSoft fs p } := by
  simp only [parse_diff_file_path, h]

theorem parse_diff_file_eq_of_exists (fs : FS) (p : Str) (h : os_path_exists fs p = true) :
    parse_diff_file fs p = some (parse_diff_file_path fs p) := by
  simp only [parse_diff_file, parse_diff_file_path, if_pos h]
  cases hm : rangeMatch (basename p) with
  | none => simp [hm]
  | some pr => cases pr with | mk d1 d2 => simp [hm]

theorem parse_diff_file_eq_none (fs : FS) (p : Str) (h : os_path_exists fs p = false) :
    parse_diff_file fs p = none := by
  unfold parse_diff_file
  rw [if_neg (by simp [h])]

theorem parse_diff_file_exists_of_some (fs : FS) (p : Str) (d : ParsedDiff)
    (h : parse_diff_file fs p = some d) : os_path_exists fs p = true := by
  by_contra hne
  have hfalse : os_path_exists fs p = false := by
    cases hv : os_path_exists fs p
    · rfl
    · exact absurd hv hne
  rw [parse_diff_file_eq_none fs p hfalse] at h
  exact absurd h (by simp)

theorem ppath_content (fs : FS) (p : Str) :
    (parse_diff_file_path fs p).content = readFileSoft fs p := by
  simp only [parse_diff_file_path]
  cases hm : rangeMatch (basename p) with
  | none => simp [hm]
  | some pr => cases pr with | mk d1 d2 => simp [hm]

theorem startsWith_line_file (f : Str) :
    startsWith (str "Line: ") (str "File: `" ++ (f ++ str "`")) = false := rfl

theorem filterMap_skip_empty {α : Type} (f : Str → α) :
    ∀ l : List Str,
      l.filterMap (fun p => if p = [] then none else some (f p)) =
        (l.filter (fun t => !t.isEmpty)).map f := by
  intro l
  induction l with
  | nil => rfl
  | cons p rest ih =>
    by_cases hp : p = []
    · subst hp
      simpa [List.filterMap_cons, List.filter_cons] using ih
    · have hne : (!p.isEmpty) = true := by
        cases p
        · exact absurd rfl hp
        · rfl
      simp [List.filterMap_cons, List.filter_cons, hp, hne, ih]

theorem parse_diff_files_script_eq (fs : FS) (csv : Str) :
    parse_diff_files_script fs csv =
      (((splitOnChar ',' csv).map strip).filter (fun t => !t.isEmpty)).map
        (parse_diff_file_path fs) := by
  unfold parse_diff_files_script
  exact filterMap_skip_empty (parse_diff_file_path fs) _

theorem parse_diff_files_eq_of_all_exist (fs : FS) (csv : Str)
    (h : ∀ t ∈ (splitOnChar ',' csv).map strip, t ≠ [] → os_path_exists fs t = true) :
    parse_diff_files fs csv =
      (((splitOnChar ',' csv).map strip).filter (fun t => !t.isEmpty)).map
        (parse_diff_file_path fs) := by
  unfold parse_diff_files
  have main : ∀ l : List Str, (∀ t ∈ l, t ≠ [] → os_path_exists fs t = true) →
      l.filterMap (fun p => if p = [] then none else parse_diff_file fs p) =
        (l.filter (fun t => !t.isEmpty)).map (parse_diff_file_path fs) := by
    intro l
    induction l with
    | nil => intro _; rfl
    | cons p rest ih =>
      intro hall
      by_cases hp : p = []
      · subst hp
        simpa [List.filterMap_cons, List.filter_cons] using
          ih (fun t ht => hall t (List.mem_cons_of_mem _ ht))
      · have hex : os_path_exists fs p = true :=
          hall p (List.mem_cons_self p rest) hp
      
        have hne : (!p.isEmpty) = true := by
          cases p
          · exact absurd rfl hp
          · rfl
        rw [List.filterMap_cons, if_neg hp, parse_diff_file_eq_of_exists fs p hex]
        simp only [List.filter_cons, hne, if_pos trivial, List.map_cons]
        rw [ih (fun t ht => hall t (List.mem_cons_of_mem _ ht))]
  exact main _ h

/-- Claim C1, counterexample: on a filesystem where the path does not exist,
`parse_diff_file` (bitbucket_comments.py lines 114-116) returns `None` instead
of a fail-soft record, and `parse_diff_files` drops the entry from the batch,
contradicting "it does not raise and does not drop the record". -/
theorem claim_C1_counterexample :
    parse_diff_file fsAllAbsent (str "missing.diff") = none ∧
    parse_diff_files fsAllAbsent (str "missing.diff") = [] := by
  decide

/-- Claim C1, amended: `parse_diff_file_path` is fail-soft for every failure
kind, embedding the diagnostic string in the content field; `parse_diff_file`
is fail-soft only for permission and decoding failures on existing paths, and
returns `None` (dropping the record) when the path does not exist. -/
theorem claim_C1_theorem :
    (∀ (fs : FS) (p m : Str), fs p = FileState.permissionDenied m →
      parse_diff_file fs p = some (parse_diff_file_path fs p) ∧
      (parse_diff_file_path fs p).content = str "Error reading file: " ++ m) ∧
    (∀ (fs : FS) (p m : Str), fs p = FileState.decodeError m →
      parse_diff_file fs p = some (parse_diff_file_path fs p) ∧
      (parse_diff_file_path fs p).content = str "Error reading file: " ++ m) ∧
    (∀ (fs : FS) (p m : Str), fs p = FileState.absent m →
      parse_diff_file fs p = none ∧
      (parse_diff_file_path fs p).content = str "Error reading file: " ++ m) := by
  refine ⟨?_, ?_, ?_⟩ <;> intro fs p m hfs
  · refine ⟨parse_diff_file_eq_of_exists fs p ?_, ?_⟩
    · unfold os_path_exists; rw [hfs]
    · rw [ppath_content]; unfold readFileSoft; rw [hfs]
  · refine ⟨parse_diff_file_eq_of_exists fs p ?_, ?_⟩
    · unfold os_path_exists; rw [hfs]
    · rw [ppath_content]; unfold readFileSoft; rw [hfs]
  · refine ⟨parse_diff_file_eq_none fs p ?_, ?_⟩
    · unfold os_path_exists; rw [hfs]
    · rw [ppath_content]; unfold readFileSoft; rw [hfs]

/-- Witness for the C1 theorem at a concrete permission failure. -/
theorem claim_C1_witness :
    parse_diff_file fsPermDenied (str "w1.diff") =
      some (parse_diff_file_path fsPermDenied (str "w1.diff")) ∧
    (parse_diff_file_path fsPermDenied (str "w1.diff")).content =
      str "Error reading file: " ++ str "Permission denied" :=
  claim_C1_theorem.1 fsPermDenied (str "w1.diff") (str "Permission denied") rfl

/-- Claim C2, counterexample: the code removes every occurrence of `.diff`
(`str.replace`, bitbucket_comments.py line 122 / parse-diff-files.py line 26),
not just a trailing suffix: the basename `a.diff.txt` has no trailing `.diff`,
yet the parsed filename is `a.txt`, not the untouched `a.diff.txt`. -/
theorem claim_C2_counterexample :
    (parse_diff_file_path fsAllAbsent (str "a.diff.txt")).range = none ∧
    (parse_diff_file_path fsAllAbsent (str "a.diff.txt")).filename = str "a.txt" ∧
    (parse_diff_file_path fsAllAbsent (str "a.diff.txt")).filename ≠ str "a.diff.txt" := by
  decide

/-- Claim C2, amended: for every path whose basename does not match the range
grammar, the record has no range and its filename is the basename with every
occurrence of `.diff` removed (one left-to-right pass); when the basename
contains no `.diff` at all it is returned unchanged. -/
theorem claim_C2_theorem :
    (∀ (fs : FS) (p : Str), (¬ ∃ pre d1 d2, RangeSuffixDecomp (basename p) pre d1 d2) →
      (parse_diff_file_path fs p).range = none ∧
      (parse_diff_file_path fs p).filename = removeAll (str ".diff") (basename p)) ∧
    (∀ (fs : FS) (p : Str), hasSubstr (str ".diff") (basename p) = false →
      (parse_diff_file_path fs p).range = none ∧
      (parse_diff_file_path fs p).filename = basename p) := by
  have key : ∀ (fs : FS) (p : Str),
      (¬ ∃ pre d1 d2, RangeSuffixDecomp (basename p) pre d1 d2) →
      (parse_diff_file_path fs p).range = none ∧
      (parse_diff_file_path fs p).filename = removeAll (str ".diff") (basename p) := by
    intro fs p hno
    have hm : rangeMatch (basename p) = none := by
      cases hv : rangeMatch (basename p) with
      | none => rfl
      | some pr =>
        cases pr with
        | mk d1 d2 =>
          obtain ⟨pre, hdec⟩ := (rangeMatch_eq_some_iff (basename p) d1 d2).mp hv
          exact absurd ⟨pre, d1, d2, hdec⟩ hno
    rw [ppath_rangeMatch_none fs p hm]
    exact ⟨rfl, rfl⟩
  refine ⟨key, ?_⟩
  intro fs p hsub
  have hno : ¬ ∃ pre d1 d2, RangeSuffixDecomp (basename p) pre d1 d2 := by
    rintro ⟨pre, d1, d2, hdec, -⟩
    have hall : hasSubstr (str ".diff") (basename p) = true := by
      rw [hdec]
      have hassoc : pre ++ '.' :: (d1 ++ '-' :: (d2 ++ str ".diff"))
          = (pre ++ '.' :: (d1 ++ '-' :: d2)) ++ str ".diff" := by
        simp [List.append_assoc]
      rw [hassoc]
      exact hasSubstr_append_of_startsWith _ _ (startsWith_refl _) _
    rw [hall] at hsub
    exact absurd hsub (by simp)
  have h1 := key fs p hno
  refine ⟨h1.1, ?_⟩
  rw [h1.2, removeAll_id _ _ hsub]

/-- Witness for the C2 theorem at a concrete basename with no `.diff`. -/
theorem claim_C2_witness :
    (parse_diff_file_path fsAllAbsent (str "notes.txt")).range = none ∧
    (parse_diff_file_path fsAllAbsent (str "notes.txt")).filename =
      basename (str "notes.txt") :=
  claim_C2_theorem.2 fsAllAbsent (str "notes.txt") (by decide)

/-- Claim C3, counterexample: on a range match, the code removes every
occurrence of the matched `.<d1>-<d2>` substring (`str.replace`,
bitbucket_comments.py line 140 / parse-diff-files.py line 45), not only the
trailing one: `a.1-2.b.1-2.diff` parses to filename `a.b`, not `a.1-2.b`
(the earlier `.1-2` segment does not remain). -/
theorem claim_C3_counterexample :
    (parse_diff_file_path fsAllAbsent (str "a.1-2.b.1-2.diff")).range = some (str "1-2") ∧
    (parse_diff_file_path fsAllAbsent (str "a.1-2.b.1-2.diff")).filename = str "a.b" ∧
    (parse_diff_file_path fsAllAbsent (str "a.1-2.b.1-2.diff")).filename ≠ str "a.1-2.b" := by
  decide

/-- Claim C3, amended: when the basename matches the anchored grammar
`.<d1>-<d2>.diff`, the record's range is `(d1, d2)` (as parsed integers in
`start_line`/`end_line`), and the filename is the `.diff`-stripped working
name with every occurrence of the matched `.<d1>-<d2>` substring removed
(earlier dot-separated numeric segments are inert for matching, but a segment
equal to the matched range string is removed as well). -/
theorem claim_C3_theorem : ∀ (fs : FS) (p pre d1 d2 : Str),
    RangeSuffixDecomp (basename p) pre d1 d2 →
    (parse_diff_file_path fs p).range = some (d1 ++ '-' :: d2) ∧
    (parse_diff_file_path fs p).start_line = some (digitsToNat d1) ∧
    (parse_diff_file_path fs p).end_line = some (digitsToNat d2) ∧
    (parse_diff_file_path fs p).filename =
      removeAll ('.' :: (d1 ++ '-' :: d2)) (removeAll (str ".diff") (basename p)) := by
  intro fs p pre d1 d2 hdec
  have hm : rangeMatch (basename p) = some (d1, d2) :=
    (rangeMatch_eq_some_iff (basename p) d1 d2).mpr ⟨pre, hdec⟩
  rw [ppath_rangeMatch_some fs p d1 d2 hm]
  exact ⟨rfl, rfl, rfl, rfl⟩

/-- Witness for the C3 theorem at `src/f.py.42-100.diff`. -/
theorem claim_C3_witness :
    (parse_diff_file_path fsAllAbsent (str "src/f.py.42-100.diff")).range =
      some (str "42" ++ '-' :: str "100") ∧
    (parse_diff_file_path fsAllAbsent (str "src/f.py.42-100.diff")).start_line =
      some (digitsToNat (str "42")) ∧
    (parse_diff_file_path fsAllAbsent (str "src/f.py.42-100.diff")).end_line =
      some (digitsToNat (str "100")) ∧
    (parse_diff_file_path fsAllAbsent (str "src/f.py.42-100.diff")).filename =
      removeAll ('.' :: (str "42" ++ '-' :: str "100"))
        (removeAll (str ".diff") (basename (str "src/f.py.42-100.diff"))) :=
  claim_C3_theorem fsAllAbsent (str "src/f.py.42-100.diff") (str "f.py") (str "42")
    (str "100") (by decide)

theorem line_part_mem (c f : Str) (n : Nat) :
    (str "Line: " ++ natToDigits n) ∈ formatParts c f (some n) := by
  unfold formatParts
  by_cases hf : f ≠ [] <;> simp [hf]

theorem no_line_part (c f : Str) (hc : startsWith (str "Line: ") c = false) :
    ∀ part ∈ formatParts c f none, startsWith (str "Line: ") part = false := by
  intro part hpart
  unfold formatParts at hpart
  dsimp only at hpart
  by_cases hf : f ≠ []
  · rw [if_pos hf] at hpart
    simp at hpart
    rcases hpart with rfl | rfl
    · exact hc
    · exact startsWith_line_file f
  · rw [if_neg hf] at hpart
    simp only [List.mem_singleton] at hpart
    subst hpart
    exact hc

/-- Claim C4, counterexample: `parse_diff_files` (bitbucket_comments.py) does
not produce one record per non-empty token — a token whose path does not exist
is silently dropped (lines 179-181), so one token can yield zero records. -/
theorem claim_C4_counterexample :
    ((splitOnChar ',' (str "missing2.diff")).map strip).filter (fun t => !t.isEmpty) =
      [str "missing2.diff"] ∧
    parse_diff_files fsAllAbsent (str "missing2.diff") = [] := by
  decide

/-- Claim C4, amended: both batch loops split on commas, strip each token and
skip empty tokens in order; the standalone script's loop processes exactly one
record per remaining token unconditionally, while `parse_diff_files` does so
only for tokens whose path exists (others are dropped); on a filesystem where
all tokens exist, the quoted example yields the three records described. -/
theorem claim_C4_theorem :
    (∀ (fs : FS) (csv : Str),
      parse_diff_files_script fs csv =
        (((splitOnChar ',' csv).map strip).filter (fun t => !t.isEmpty)).map
          (parse_diff_file_path fs)) ∧
    (∀ (fs : FS) (csv : Str),
      (∀ t ∈ (splitOnChar ',' csv).map strip, t ≠ [] → os_path_exists fs t = true) →
      parse_diff_files fs csv =
        (((splitOnChar ',' csv).map strip).filter (fun t => !t.isEmpty)).map
          (parse_diff_file_path fs)) ∧
    (parse_diff_files fsAllEmpty (str "a.diff, b.1-5.diff , ,c.9-10.diff")).map
        (fun d => (d.filename, d.range, d.start_line, d.end_line)) =
      [(str "a", none, none, none),
       (str "b", some (str "1-5"), some 1, some 5),
       (str "c", some (str "9-10"), some 9, some 10)] := by
  refine ⟨parse_diff_files_script_eq, parse_diff_files_eq_of_all_exist, ?_⟩
  decide

/-- Witness for the C4 theorem on a filesystem where every path exists. -/
theorem claim_C4_witness :
    parse_diff_files fsAllEmpty (str "x.diff,y.3-4.diff") =
      (((splitOnChar ',' (str "x.diff,y.3-4.diff")).map strip).filter
        (fun t => !t.isEmpty)).map (parse_diff_file_path fsAllEmpty) :=
  claim_C4_theorem.2.1 fsAllEmpty (str "x.diff,y.3-4.diff") (by decide)

/-- Claim C5, counterexample: the grammar accepts `0` and descending ranges —
`f.0-5.diff` parses with `start_line = 0` (not positive), and `f.5-3.diff`
parses with `start_line = 5 > end_line = 3`; no validation is performed. -/
theorem claim_C5_counterexample :
    (parse_diff_file_path fsAllAbsent (str "f.0-5.diff")).range.isSome = true ∧
    (parse_diff_file_path fsAllAbsent (str "f.0-5.diff")).start_line = some 0 ∧
    ¬ (1 ≤ 0) ∧
    (parse_diff_file_path fsAllAbsent (str "f.5-3.diff")).start_line = some 5 ∧
    (parse_diff_file_path fsAllAbsent (str "f.5-3.diff")).end_line = some 3 ∧
    ¬ (5 ≤ 3) := by
  decide

/-- Claim C5, amended: when `range` is present, `start_line` and `end_line`
are both present, are the non-negative integers parsed from the two digit
groups, and the range string is non-empty; neither `1 ≤ start_line` nor
`start_line ≤ end_line` is guaranteed. -/
theorem claim_C5_theorem : ∀ (fs : FS) (p : Str),
    ((parse_diff_file_path fs p).range.isSome ↔
      (parse_diff_file_path fs p).start_line.isSome) ∧
    ((parse_diff_file_path fs p).range.isSome ↔
      (parse_diff_file_path fs p).end_line.isSome) ∧
    (∀ r, (parse_diff_file_path fs p).range = some r →
      r ≠ [] ∧ ∃ d1 d2, r = d1 ++ '-' :: d2 ∧
        (parse_diff_file_path fs p).start_line = some (digitsToNat d1) ∧
        (parse_diff_file_path fs p).end_line = some (digitsToNat d2)) := by
  intro fs p
  cases hm : rangeMatch (basename p) with
  | none =>
    rw [ppath_rangeMatch_none fs p hm]
    simp
  | some pr =>
    cases pr with
    | mk d1 d2 =>
      rw [ppath_rangeMatch_some fs p d1 d2 hm]
      refine ⟨by simp, by simp, ?_⟩
      intro r hr
      have hre : d1 ++ '-' :: d2 = r := Option.some.inj hr
      subst hre
      refine ⟨by simp, d1, d2, rfl, rfl, rfl⟩

/-- Witness for the C5 theorem at `g.7-9.diff`. -/
theorem claim_C5_witness :
    str "7-9" ≠ [] ∧ ∃ d1 d2, str "7-9" = d1 ++ '-' :: d2 ∧
      (parse_diff_file_path fsAllEmpty (str "g.7-9.diff")).start_line =
        some (digitsToNat d1) ∧
      (parse_diff_file_path fsAllEmpty (str "g.7-9.diff")).end_line =
        some (digitsToNat d2) :=
  (claim_C5_theorem fsAllEmpty (str "g.7-9.diff")).2.2 (str "7-9") (by decide)

/-- Claim C6: in the `main` pipeline (bitbucket_comments.py lines 258-281),
a record without a range gives the formatter an absent line — so no `Line:`
part is rendered (beyond a base comment that itself starts with `Line: `) —
while the submission line is the fixed default `1`; a record with a range
gives both the formatter and submission the range's `start_line`. -/
theorem claim_C6_theorem : ∀ (fs : FS) (p c : Str) (d : ParsedDiff),
    parse_diff_file fs p = some d →
    (d.range = none →
      submit_line d = 1 ∧ display_line d = none ∧
      (startsWith (str "Line: ") c = false →
        ∀ part ∈ formatParts c d.filename (display_line d),
          startsWith (str "Line: ") part = false)) ∧
    (∀ r, d.range = some r →
      ∃ st, d.start_line = some st ∧ display_line d = some st ∧ submit_line d = st ∧
        (str "Line: " ++ natToDigits st) ∈ formatParts c d.filename (display_line d)) := by
  intro fs p c d hd
  have hex := parse_diff_file_exists_of_some fs p d hd
  have hpp : d = parse_diff_file_path fs p := by
    rw [parse_diff_file_eq_of_exists fs p hex] at hd
    exact (Option.some.inj hd).symm
  constructor
  · intro hnone
    have hdl : display_line d = none := by
      unfold display_line
      rw [hnone]
      rfl
    refine ⟨?_, hdl, ?_⟩
    · unfold submit_line
      rw [hnone]
      rfl
    · intro hc
      rw [hdl]
      exact no_line_part c d.filename hc
  · intro r hr
    rw [hpp] at hr ⊢
    cases hm : rangeMatch (basename p) with
    | none =>
      rw [ppath_rangeMatch_none fs p hm] at hr
      exact absurd hr (by simp)
    | some pr =>
      cases pr with
      | mk d1 d2 =>
        rw [ppath_rangeMatch_some fs p d1 d2 hm] at hr ⊢
        have htr : pyTruthyStr (some (d1 ++ '-' :: d2)) = true := by
          unfold pyTruthyStr
          cases d1 <;> rfl
        have hdl : display_line
            { filename := removeAll ('.' :: (d1 ++ '-' :: d2))
                (removeAll (str ".diff") (basename p)),
              range := some (d1 ++ '-' :: d2),
              start_line := some (digitsToNat d1), end_line := some (digitsToNat d2),
              full_path := p, content := readFileSoft fs p } =
            some (digitsToNat d1) := by
          unfold display_line
          rw [if_pos htr]
        refine ⟨digitsToNat d1, rfl, hdl, ?_, ?_⟩
        · unfold submit_line
          rw [if_pos htr]
          rfl
        · rw [hdl]
          exact line_part_mem c _ (digitsToNat d1)

/-- Witness for the C6 theorem at a record with range `1-5`. -/
theorem claim_C6_witness :
    ∃ st, (parse_diff_file_path fsAllEmpty (str "b2.1-5.diff")).start_line = some st ∧
      display_line (parse_diff_file_path fsAllEmpty (str "b2.1-5.diff")) = some st ∧
      submit_line (parse_diff_file_path fsAllEmpty (str "b2.1-5.diff")) = st ∧
      (str "Line: " ++ natToDigits st) ∈
        formatParts (str "msg")
          (parse_diff_file_path fsAllEmpty (str "b2.1-5.diff")).filename
          (display_line (parse_diff_file_path fsAllEmpty (str "b2.1-5.diff"))) :=
  (claim_C6_theorem fsAllEmpty (str "b2.1-5.diff") (str "msg")
      (parse_diff_file_path fsAllEmpty (str "b2.1-5.diff")) (by decide)).2
    (str "1-5") (by decide)

/-- Claim C7: a fenced code block is appended exactly when the content is
non-empty and contains the literal `+++` marker, and the block holds at most
the first 8 newline-separated lines of the content, placed after the
formatter's output (base text, file line, line-number line). -/
theorem claim_C7_theorem : ∀ (c : Str) (d : ParsedDiff),
    (build_comment_text c d =
        format_comment c d.filename (display_line d) ++ str "\x0a\x0a```\x0a"
          ++ joinNl ((splitOnChar '\x0a' d.content).take 8) ++ str "\x0a```"
      ↔ (d.content ≠ [] ∧ hasSubstr (str "+++") d.content = true)) ∧
    ((splitOnChar '\x0a' d.content).take 8).length ≤ 8 ∧
    (∃ rest, splitOnChar '\x0a' d.content = (splitOnChar '\x0a' d.content).take 8 ++ rest) ∧
    (¬ (d.content ≠ [] ∧ hasSubstr (str "+++") d.content = true) →
      build_comment_text c d = format_comment c d.filename (display_line d)) := by
  intro c d
  refine ⟨?_, ?_, ⟨(splitOnChar '\x0a' d.content).drop 8,
    (List.take_append_drop 8 _).symm⟩, ?_⟩
  · by_cases hcond : d.content ≠ [] ∧ hasSubstr (str "+++") d.content = true
    · simp only [build_comment_text]
      rw [if_pos hcond]
      exact iff_of_true rfl hcond
    · simp only [build_comment_text]
      rw [if_neg hcond]
      refine iff_of_false ?_ hcond
      intro heq
      have hlen := congrArg List.length heq
      simp only [List.length_append] at hlen
      have h6 : (str "\x0a\x0a```\x0a").length = 6 := rfl
      have h4 : (str "\x0a```").length = 4 := rfl
      rw [h6, h4] at hlen
      omega
  · rw [List.length_take]
    exact Nat.min_le_left 8 _
  · intro hcond
    simp only [build_comment_text]
    rw [if_neg hcond]

/-- Witness for the C7 theorem: empty content appends no fence. -/
theorem claim_C7_witness :
    build_comment_text (str "note") (parse_diff_file_path fsAllEmpty (str "plain.diff")) =
      format_comment (str "note")
        (parse_diff_file_path fsAllEmpty (str "plain.diff")).filename
        (display_line (parse_diff_file_path fsAllEmpty (str "plain.diff"))) :=
  (claim_C7_theorem (str "note") (parse_diff_file_path fsAllEmpty (str "plain.diff"))).2.2.2
    (by decide)

/-- Claim C8: `filename`, `range`, `start_line` and `end_line` are functions
of the path text alone — two runs over any two filesystems agree on them, for
the standalone parser unconditionally and for `parse_diff_file` whenever both
runs produce records. -/
theorem claim_C8_theorem : ∀ (fs1 fs2 : FS) (p : Str),
    ((parse_diff_file_path fs1 p).filename = (parse_diff_file_path fs2 p).filename ∧
     (parse_diff_file_path fs1 p).range = (parse_diff_file_path fs2 p).range ∧
     (parse_diff_file_path fs1 p).start_line = (parse_diff_file_path fs2 p).start_line ∧
     (parse_diff_file_path fs1 p).end_line = (parse_diff_file_path fs2 p).end_line) ∧
    (∀ e1 e2 : ParsedDiff,
      parse_diff_file fs1 p = some e1 → parse_diff_file fs2 p = some e2 →
      e1.filename = e2.filename ∧ e1.range = e2.range ∧
      e1.start_line = e2.start_line ∧ e1.end_line = e2.end_line) := by
  intro fs1 fs2 p
  have base : (parse_diff_file_path fs1 p).filename = (parse_diff_file_path fs2 p).filename ∧
      (parse_diff_file_path fs1 p).range = (parse_diff_file_path fs2 p).range ∧
      (parse_diff_file_path fs1 p).start_line = (parse_diff_file_path fs2 p).start_line ∧
      (parse_diff_file_path fs1 p).end_line = (parse_diff_file_path fs2 p).end_line := by
    cases hm : rangeMatch (basename p) with
    | none =>
      rw [ppath_rangeMatch_none fs1 p hm, ppath_rangeMatch_none fs2 p hm]
      exact ⟨rfl, rfl, rfl, rfl⟩
    | some pr =>
      cases pr with
      | mk d1 d2 =>
        rw [ppath_rangeMatch_some fs1 p d1 d2 hm, ppath_rangeMatch_some fs2 p d1 d2 hm]
        exact ⟨rfl, rfl, rfl, rfl⟩
  refine ⟨base, ?_⟩
  intro e1 e2 h1 h2
  have he1 : e1 = parse_diff_file_path fs1 p := by
    rw [parse_diff_file_eq_of_exists fs1 p (parse_diff_file_exists_of_some fs1 p e1 h1)] at h1
    exact (Option.some.inj h1).symm
  have he2 : e2 = parse_diff_file_path fs2 p := by
    rw [parse_diff_file_eq_of_exists fs2 p (parse_diff_file_exists_of_some fs2 p e2 h2)] at h2
    exact (Option.some.inj h2).symm
  rw [he1, he2]
  exact base

/-- Witness for the C8 theorem: two filesystems with different contents. -/
theorem claim_C8_witness :
    (parse_diff_file_path fsAllEmpty (str "w.3-4.diff")).filename =
      (parse_diff_file_path fsPlus (str "w.3-4.diff")).filename ∧
    (parse_diff_file_path fsAllEmpty (str "w.3-4.diff")).range =
      (parse_diff_file_path fsPlus (str "w.3-4.diff")).range ∧
    (parse_diff_file_path fsAllEmpty (str "w.3-4.diff")).start_line =
      (parse_diff_file_path fsPlus (str "w.3-4.diff")).start_line ∧
    (parse_diff_file_path fsAllEmpty (str "w.3-4.diff")).end_line =
      (parse_diff_file_path fsPlus (str "w.3-4.diff")).end_line :=
  (claim_C8_theorem fsAllEmpty fsPlus (str "w.3-4.diff")).2
    (parse_diff_file_path fsAllEmpty (str "w.3-4.diff"))
    (parse_diff_file_path fsPlus (str "w.3-4.diff")) (by decide) (by decide)

/-- Claim C9: on every path that exists (same read outcome in both runs,
since the filesystem oracle is fixed), the two independent implementations
agree — `parse_diff_file` returns exactly the record `parse_diff_file_path`
computes, so every field (`filename`, `range`, `start_line`, `end_line`,
`full_path`, `content`) coincides. -/
theorem claim_C9_theorem : ∀ (fs : FS) (p : Str), os_path_exists fs p = true →
    parse_diff_file fs p = some (parse_diff_file_path fs p) ∧
    ∀ e : ParsedDiff, parse_diff_file fs p = some e →
      e.filename = (parse_diff_file_path fs p).filename ∧
      e.range = (parse_diff_file_path fs p).range ∧
      e.start_line = (parse_diff_file_path fs p).start_line ∧
      e.end_line = (parse_diff_file_path fs p).end_line ∧
      e.full_path = (parse_diff_file_path fs p).full_path ∧
      e.content = (parse_diff_file_path fs p).content := by
  intro fs p hex
  have h := parse_diff_file_eq_of_exists fs p hex
  refine ⟨h, ?_⟩
  intro e he
  rw [h] at he
  rw [← Option.some.inj he]
  exact ⟨rfl, rfl, rfl, rfl, rfl, rfl⟩

/-- Witness for the C9 theorem at an existing path. -/
theorem claim_C9_witness :
    parse_diff_file fsAllEmpty (str "q.diff") =
      some (parse_diff_file_path fsAllEmpty (str "q.diff")) :=
  (claim_C9_theorem fsAllEmpty (str "q.diff") (by decide)).1

/-- Claim C10, counterexample: a single `replace` pass can juxtapose new
`.diff` occurrences — the basename `.di.diffff` parses to the filename
`.diff`, which still contains `.diff`. -/
theorem claim_C10_counterexample :
    (parse_diff_file_path fsAllAbsent (str ".di.diffff")).filename = str ".diff" ∧
    hasSubstr (str ".diff")
      (parse_diff_file_path fsAllAbsent (str ".di.diffff")).filename = true := by
  decide

/-- Claim C10, amended: every occurrence of `.diff` present in the basename
is removed in one left-to-right pass (`archive.diff.tar` yields
`archive.tar`), but the removal is not iterated, so juxtaposition can leave a
new `.diff` in the result (`.di.diffff` yields `.diff`). -/
theorem claim_C10_theorem : ∀ (fs : FS),
    (parse_diff_file_path fs (str "archive.diff.tar")).filename = str "archive.tar" ∧
    (parse_diff_file_path fs (str ".di.diffff")).filename = str ".diff" := by
  intro fs
  constructor
  · rw [ppath_rangeMatch_none fs (str "archive.diff.tar") (by decide)]
    show removeAll (str ".diff") (basename (str "archive.diff.tar")) = str "archive.tar"
    decide
  · rw [ppath_rangeMatch_none fs (str ".di.diffff") (by decide)]
    show removeAll (str ".diff") (basename (str ".di.diffff")) = str ".diff"
    decide
